import Mathlib

/-!
Verification of the bill-splitting core of the `spill_app` repository.

The embedding covers the two components the specification describes:

* the Extractor (`processBillImage` in `utils/imageProcessing.ts`, of which
  the repository contains two historical versions: Schema A, an object with
  `items`, `cgst`, `sgst`; and Schema B, a flat array of
  `(description, price, isTax)` records), and
* the Allocator (`costBreakdown` in `app/(tabs)/index.tsx`).

Prices are modelled as rational numbers; JavaScript objects used as string
keyed maps are modelled as association lists with JavaScript insertion
semantics (updating an existing key in place, appending a fresh key at the
end).  `JSON.parse` is modelled by an executable recursive descent parser
over a `Json` value type, and the regex fallbacks of the two Extractor
versions by an executable greedy first-opening-to-last-closing bracket
span function, matching the semantics of the patterns used in the source.
-/

namespace Spill

/-! ### JSON values and a model of JSON.parse -/

/-- JSON values, the result type of the model of `JSON.parse`. -/
inductive Json where
  | null
  | bool (b : Bool)
  | num (q : ℚ)
  | str (s : String)
  | arr (elems : List Json)
  | obj (fields : List (String × Json))

/-- JSON whitespace characters. -/
def isWs (c : Char) : Bool :=
  c = ' ' || c = '\t' || c = '\n' || c = '\r'

/-- Drop leading JSON whitespace. -/
def skipWs : List Char → List Char
  | [] => []
  | c :: cs => if isWs c then skipWs cs else c :: cs

/-- Split a character list into its leading run of decimal digits and the rest. -/
def takeDigits : List Char → List Char × List Char
  | [] => ([], [])
  | c :: cs =>
    if c.isDigit then
      let r := takeDigits cs
      (c :: r.1, r.2)
    else ([], c :: cs)

/-- Numeric value of a digit run. -/
def digitsVal (ds : List Char) : Nat :=
  ds.foldl (fun n c => 10 * n + (c.toNat - 48)) 0

/-- Value of a hexadecimal digit, if any. -/
def hexVal (c : Char) : Option Nat :=
  if c.isDigit then some (c.toNat - 48)
  else if 'a' ≤ c ∧ c ≤ 'f' then some (c.toNat - 87)
  else if 'A' ≤ c ∧ c ≤ 'F' then some (c.toNat - 55)
  else none

/-- Parse a JSON number at the head of the input, returning it and the rest. -/
def parseNumberFrom (cs : List Char) : Option (Json × List Char) :=
  let p1 : Bool × List Char :=
    match cs with
    | '-' :: rest => (true, rest)
    | _ => (false, cs)
  let p2 := takeDigits p1.2
  if p2.1.isEmpty then none
  else if 1 < p2.1.length ∧ p2.1.headD '1' = '0' then none
  else
    let base : ℚ := (digitsVal p2.1 : ℚ)
    let step2 : Option (ℚ × List Char) :=
      match p2.2 with
      | '.' :: rest =>
        let fr := takeDigits rest
        if fr.1.isEmpty then none
        else some (base + (digitsVal fr.1 : ℚ) / (10 : ℚ) ^ fr.1.length, fr.2)
      | _ => some (base, p2.2)
    match step2 with
    | none => none
    | some (q2, cs3) =>
      let step3 : Option (ℚ × List Char) :=
        match cs3 with
        | 'e' :: rest =>
          match rest with
          | '+' :: r =>
            let ed := takeDigits r
            if ed.1.isEmpty then none else some (q2 * (10 : ℚ) ^ digitsVal ed.1, ed.2)
          | '-' :: r =>
            let ed := takeDigits r
            if ed.1.isEmpty then none else some (q2 / (10 : ℚ) ^ digitsVal ed.1, ed.2)
          | r =>
            let ed := takeDigits r
            if ed.1.isEmpty then none else some (q2 * (10 : ℚ) ^ digitsVal ed.1, ed.2)
        | 'E' :: rest =>
          match rest with
          | '+' :: r =>
            let ed := takeDigits r
            if ed.1.isEmpty then none else some (q2 * (10 : ℚ) ^ digitsVal ed.1, ed.2)
          | '-' :: r =>
            let ed := takeDigits r
            if ed.1.isEmpty then none else some (q2 / (10 : ℚ) ^ digitsVal ed.1, ed.2)
          | r =>
            let ed := takeDigits r
            if ed.1.isEmpty then none else some (q2 * (10 : ℚ) ^ digitsVal ed.1, ed.2)
        | _ => some (q2, cs3)
      match step3 with
      | none => none
      | some (q3, cs4) => some (Json.num (if p1.1 then -q3 else q3), cs4)

/-- Parse the body of a JSON string after its opening quote, handling escapes.
Returns the decoded characters and the input after the closing quote. -/
def parseStringChars : List Char → Option (List Char × List Char)
  | [] => none
  | c :: cs =>
    if c = '"' then some ([], cs)
    else if c = '\\' then
      match cs with
      | [] => none
      | 'u' :: h1 :: h2 :: h3 :: h4 :: cs3 =>
        match hexVal h1, hexVal h2, hexVal h3, hexVal h4 with
        | some a, some b, some d, some e =>
          match parseStringChars cs3 with
          | some (s, r) => some (Char.ofNat (((a * 16 + b) * 16 + d) * 16 + e) :: s, r)
          | none => none
        | _, _, _, _ => none
      | e :: cs2 =>
        let esc : Option Char :=
          if e = '"' then some '"'
          else if e = '\\' then some '\\'
          else if e = '/' then some '/'
          else if e = 'b' then some (Char.ofNat 8)
          else if e = 'f' then some (Char.ofNat 12)
          else if e = 'n' then some '\n'
          else if e = 'r' then some '\r'
          else if e = 't' then some '\t'
          else none
        match esc with
        | some ch =>
          match parseStringChars cs2 with
          | some (s, r) => some (ch :: s, r)
          | none => none
        | none => none
    else if c.toNat < 32 then none
    else
      match parseStringChars cs with
      | some (s, r) => some (c :: s, r)
      | none => none

/-- Parser mode: a single value, the remaining elements of an array, or the
remaining members of an object. -/
inductive PMode where
  | value
  | arrElems (acc : List Json)
  | objFields (acc : List (String × Json))

/-- Fuel-indexed recursive descent JSON parser. -/
def parseJ : Nat → PMode → List Char → Option (Json × List Char)
  | 0, _, _ => none
  | Nat.succ fuel, PMode.value, cs =>
    match skipWs cs with
    | '{' :: rest =>
      (match skipWs rest with
       | '}' :: r2 => some (Json.obj [], r2)
       | r2 => parseJ fuel (PMode.objFields []) r2)
    | '[' :: rest =>
      (match skipWs rest with
       | ']' :: r2 => some (Json.arr [], r2)
       | r2 => parseJ fuel (PMode.arrElems []) r2)
    | '"' :: rest =>
      (match parseStringChars rest with
       | some (s, r) => some (Json.str (String.mk s), r)
       | none => none)
    | 't' :: 'r' :: 'u' :: 'e' :: rest => some (Json.bool true, rest)
    | 'f' :: 'a' :: 'l' :: 's' :: 'e' :: rest => some (Json.bool false, rest)
    | 'n' :: 'u' :: 'l' :: 'l' :: rest => some (Json.null, rest)
    | other => parseNumberFrom other
  | Nat.succ fuel, PMode.arrElems acc, cs =>
    match parseJ fuel PMode.value cs with
    | none => none
    | some (v, rest) =>
      match skipWs rest with
      | ',' :: r2 => parseJ fuel (PMode.arrElems (acc ++ [v])) r2
      | ']' :: r2 => some (Json.arr (acc ++ [v]), r2)
      | _ => none
  | Nat.succ fuel, PMode.objFields acc, cs =>
    match skipWs cs with
    | '"' :: rest =>
      (match parseStringChars rest with
       | none => none
       | some (key, r2) =>
         match skipWs r2 with
         | ':' :: r3 =>
           (match parseJ fuel PMode.value r3 with
            | none => none
            | some (v, r4) =>
              match skipWs r4 with
              | ',' :: r5 => parseJ fuel (PMode.objFields (acc ++ [(String.mk key, v)])) r5
              | '}' :: r5 => some (Json.obj (acc ++ [(String.mk key, v)]), r5)
              | _ => none)
         | _ => none)
    | _ => none

/-- Model of `JSON.parse`: parse a whole string as a single JSON value,
allowing surrounding whitespace only.  Returns `none` where `JSON.parse`
throws a `SyntaxError`. -/
def jsonParse (s : String) : Option Json :=
  match parseJ (2 * s.length + 8) PMode.value s.data with
  | some (v, rest) => if skipWs rest = [] then some v else none
  | none => none

/-! ### The regex fallback of the Extractor's response parsing

Both versions of `processBillImage`, when the direct `JSON.parse` of the
model text fails, apply a regex to the text and parse the match: the
Schema A version uses an object-form pattern (opening brace, any
characters, closing brace) and the Schema B version the array-form
pattern (opening bracket, any characters, closing bracket).  Since the
inner wildcard is greedy and matches every character, the regex match is
exactly the span from the first opening character to the last closing
character of the text (when the former precedes the latter). -/

/-- Index of the first occurrence of a character in a list, if any. -/
def firstIdx (c : Char) : List Char → Option Nat
  | [] => none
  | d :: ds => if d = c then some 0 else (firstIdx c ds).map (fun i => i + 1)

/-- Index of the last occurrence of a character in a list, if any. -/
def lastIdx (c : Char) (cs : List Char) : Option Nat :=
  (firstIdx c cs.reverse).map (fun k => cs.length - 1 - k)

/-- The span from the first occurrence of `openC` to the last occurrence of
`closeC`, the semantics of the greedy regex used by the source. -/
def bracketSpan (openC closeC : Char) (s : String) : Option String :=
  match firstIdx openC s.data, lastIdx closeC s.data with
  | some i, some j =>
    if i < j then some (String.mk ((s.data.drop i).take (j + 1 - i))) else none
  | _, _ => none

/-- How response parsing can fail: `invalidJson` models a `SyntaxError`
thrown by `JSON.parse` on the regex match and propagated out of the catch
block; `noJsonFound` models the explicitly thrown
`Failed to parse model response as JSON` error, the spec's
`ResponseParseError`. -/
inductive ParseFailure where
  | invalidJson
  | noJsonFound
deriving DecidableEq

/-- The response-parsing logic shared by both versions of
`processBillImage`: try `JSON.parse` on the whole text; on failure apply
the version's regex and `JSON.parse` its match; if the regex does not
match, throw the `Failed to parse model response as JSON` error. -/
def parseResponseWith (openC closeC : Char) (text : String) : Except ParseFailure Json :=
  match jsonParse text with
  | some v => Except.ok v
  | none =>
    match bracketSpan openC closeC text with
    | some sub =>
      match jsonParse sub with
      | some v => Except.ok v
      | none => Except.error ParseFailure.invalidJson
    | none => Except.error ParseFailure.noJsonFound

/-- Response parsing of the Schema A version (object-form regex). -/
def parseModelResponseA (text : String) : Except ParseFailure Json :=
  parseResponseWith '{' '}' text

/-- Response parsing of the Schema B version (array-form regex). -/
def parseModelResponseB (text : String) : Except ParseFailure Json :=
  parseResponseWith '[' ']' text

/-- The indicated substring of a character list, from index `i` to index
`j` inclusive. -/
def substrRange (cs : List Char) (i j : Nat) : String :=
  String.mk ((cs.drop i).take (j + 1 - i))

/-- Formalization of the spec's words, for comparison with the code: search
the text for the first well-formed bracket-delimited structure (array form
or object form), i.e. the parseable bracket-opened substring with the
leftmost start (and, for that start, the earliest end), and parse it. -/
def specFirstStructure (s : String) : Option Json :=
  let cs := s.data
  (List.range cs.length).findSome? (fun i =>
    let c := cs.getD i ' '
    if c = '[' ∨ c = '{' then
      (List.range cs.length).findSome? (fun j =>
        if i ≤ j then jsonParse (substrRange cs i j) else none)
    else none)

/-- Formalization of the spec's described parsing strategy: direct
full-text parse, then first well-formed bracket-delimited structure, then
`ResponseParseError`. -/
def specParseResponse (text : String) : Except ParseFailure Json :=
  match jsonParse text with
  | some v => Except.ok v
  | none =>
    match specFirstStructure text with
    | some v => Except.ok v
    | none => Except.error ParseFailure.noJsonFound

/-! ### Data model -/

/-- A bill line item.  The `id`, `description` and `price` fields are the
`BillItem` interface of `app/(tabs)/index.tsx`; `isShared` is the optional
flag the Schema B version of `processBillImage` sets on tax items (absent,
hence false, everywhere else). -/
structure BillItem where
  id : String
  description : String
  price : ℚ
  isShared : Bool := false
deriving DecidableEq

/-- A participant in the split. -/
structure Participant where
  id : String
  name : String
deriving DecidableEq

/-- JavaScript objects used as string-keyed maps are modelled as
association lists: `costs[k] = v` updates the first binding of an existing
key in place and appends a fresh key at the end. -/
abbrev CostMap := List (String × ℚ)

/-- The `ItemAssignments` mapping from item id to assigned participant
ids. -/
abbrev ItemAssignments := List (String × List String)

/-- First binding of a key in an association list, the model of a
JavaScript property read. -/
def lookupFst {β : Type} : List (String × β) → String → Option β
  | [], _ => none
  | kv :: m, k => if kv.1 = k then some kv.2 else lookupFst m k

/-- The value of `itemAssignments[itemId] || []`. -/
def assignedTo (assignments : ItemAssignments) (itemId : String) : List String :=
  (lookupFst assignments itemId).getD []

/-- The value of `costs[k]`, with `undefined` read as the `0` supplied by
the source's `costs[pId] || 0`. -/
def getD (m : CostMap) (k : String) : ℚ :=
  (lookupFst m k).getD 0

/-- The assignment `costs[k] = v`: update the existing binding in place,
or append a new one. -/
def setVal : CostMap → String → ℚ → CostMap
  | [], k, v => [(k, v)]
  | kv :: m, k, v => if kv.1 = k then (k, v) :: m else kv :: setVal m k v

/-- The statement `costs[k] = (costs[k] || 0) + c` of the source. -/
def addTo (m : CostMap) (k : String) (c : ℚ) : CostMap :=
  setVal m k (getD m k + c)

/-- Sum of all values of the cost map. -/
def sumValues (m : CostMap) : ℚ :=
  (m.map (fun kv => kv.2)).sum

/-! ### The Allocator: `costBreakdown` of `app/(tabs)/index.tsx` -/

/-- The initialization loop `participants.forEach(p => costs[p.id] = 0)`. -/
def initCosts (participants : List Participant) : CostMap :=
  participants.foldl (fun m p => setVal m p.id 0) []

/-- The first `extractedItems.forEach` loop: for every item with a
non-empty assignment list, add `item.price / assignedTo.length` to each
listed participant id. -/
def creditAssigned (items : List BillItem) (assignments : ItemAssignments)
    (m0 : CostMap) : CostMap :=
  items.foldl (fun m item =>
    let ass := assignedTo assignments item.id
    if 0 < ass.length then
      ass.foldl (fun acc pId => addTo acc pId (item.price / (ass.length : ℚ))) m
    else m) m0

/-- Whether the first loop adds an item's id to the `assignedItemIds` set:
exactly the items whose assignment list is non-empty. -/
def isAssigned (assignments : ItemAssignments) (item : BillItem) : Bool :=
  decide (0 < (assignedTo assignments item.id).length)

/-- The contents of the `assignedItemIds` set after the first loop. -/
def assignedItemIds (items : List BillItem) (assignments : ItemAssignments) : List String :=
  (items.filter (fun it => isAssigned assignments it)).map (fun it => it.id)

/-- The filter `extractedItems.filter(item => !assignedItemIds.has(item.id))`. -/
def unassignedItems (items : List BillItem) (assignments : ItemAssignments) : List BillItem :=
  items.filter (fun it => !((assignedItemIds items assignments).contains it.id))

/-- The Allocator, `costBreakdown` of `app/(tabs)/index.tsx`: credit each
item with a non-empty assignment list to its listed ids in equal parts,
then split the price sum of the remaining items equally across all
participants (when there is at least one unassigned item and at least one
participant). -/
def costBreakdown (items : List BillItem) (participants : List Participant)
    (assignments : ItemAssignments) : CostMap :=
  let costs0 := initCosts participants
  let costs1 := creditAssigned items assignments costs0
  let unassigned := unassignedItems items assignments
  if 0 < unassigned.length ∧ 0 < participants.length then
    let costPerSharedItemPortion :=
      (unassigned.map (fun it => it.price)).sum / (participants.length : ℚ)
    participants.foldl (fun m p => addTo m p.id costPerSharedItemPortion) costs1
  else costs1

/-! ### The Extractor's normalization -/

/-- The rounding `+(x).toFixed(2)` of the Schema A version: round to the
nearest hundredth, ties away from zero upward (the larger candidate). -/
def round2 (q : ℚ) : ℚ :=
  ((⌊q * 100 + 1 / 2⌋ : ℤ) : ℚ) / 100

/-- A parsed Schema A item: `{description, price}`. -/
structure RawItemA where
  description : String
  price : ℚ
deriving DecidableEq

/-- Schema A normalization of the first `processBillImage` version: split
the total tax `cgst + sgst` equally across the items, add the share to
every price, round to 2 decimals, and assign 1-based sequential string
ids. -/
def normalizeSchemaA (items : List RawItemA) (cgst sgst : ℚ) : List BillItem :=
  let totalTaxPerItem : ℚ :=
    if 0 < items.length then (cgst + sgst) / (items.length : ℚ) else 0
  items.mapIdx (fun index item =>
    { id := toString (index + 1), description := item.description,
      price := round2 (item.price + totalTaxPerItem), isShared := false })

/-- A parsed Schema B item: `{description, price, isTax}` where the
untrusted `isTax` field may hold any JSON value or be absent. -/
structure RawItemB where
  description : String
  price : ℚ
  isTax : Option Json

/-- The strict comparison `item.isTax === true` of the source: true only
for the boolean JSON value `true`. -/
def isTrueLiteral : Option Json → Bool
  | some (Json.bool true) => true
  | _ => false

/-- Schema B normalization of the second `processBillImage` version: keep
description and price, assign 1-based sequential string ids, and set
`isShared` to the result of `item.isTax === true`. -/
def normalizeSchemaB (parsedItems : List RawItemB) : List BillItem :=
  parsedItems.mapIdx (fun index item =>
    { id := toString (index + 1), description := item.description,
      price := item.price, isShared := isTrueLiteral item.isTax })

/-! ### The Extractor pipeline: `processBillImage` (Schema B version) -/

/-- Effectful steps the Extractor can take, recorded in order: reading the
image file, and the network round trip to the model. -/
inductive Step where
  | readImage
  | callModel
deriving DecidableEq

/-- The Extractor's environment: the configured credential and oracles for
the two effects (`none` modelling failure of the effect). -/
structure Env where
  apiKey : String
  fileBase64 : Option String
  modelText : Option String

/-- The placeholder credential value the source compares against. -/
def placeholderKey : String := "YOUR_GEMINI_API_KEY"

/-- The Extractor's failure taxonomy as observable in the source: the
configuration guard, the image read failure, the transport failure, a
response-parsing failure, and a response of unexpected shape. -/
inductive ExtractError where
  | configurationError
  | imageReadError
  | networkError
  | parseFailure (e : ParseFailure)
  | shapeMismatch
deriving DecidableEq

/-- Decode one parsed Schema B item from a JSON object.  A duplicate key
in a JSON object text makes `JSON.parse` keep the last occurrence, hence
the reversed lookup. -/
def decodeRawItemB (j : Json) : Option RawItemB :=
  match j with
  | Json.obj fields =>
    (match lookupFst fields.reverse "description" with
     | some (Json.str d) =>
       (match lookupFst fields.reverse "price" with
        | some (Json.num p) => some ⟨d, p, lookupFst fields.reverse "isTax"⟩
        | _ => none)
     | _ => none)
  | _ => none

/-- Decode the parsed response into the Schema B item list. -/
def decodeItemsB (j : Json) : Option (List RawItemB) :=
  match j with
  | Json.arr elems => elems.mapM decodeRawItemB
  | _ => none

/-- The Schema B version of `processBillImage`, as a function of the
environment, returning the effect trace alongside the result.  The
credential guard is the first statement of the function body, before the
image read and before the network call. -/
def processBillImage (env : Env) : List Step × Except ExtractError (List BillItem) :=
  if env.apiKey = "" ∨ env.apiKey = placeholderKey then
    ([], Except.error ExtractError.configurationError)
  else
    match env.fileBase64 with
    | none => ([Step.readImage], Except.error ExtractError.imageReadError)
    | some _ =>
      match env.modelText with
      | none => ([Step.readImage, Step.callModel], Except.error ExtractError.networkError)
      | some text =>
        match parseModelResponseB text with
        | Except.error e =>
          ([Step.readImage, Step.callModel], Except.error (ExtractError.parseFailure e))
        | Except.ok j =>
          match decodeItemsB j with
          | none => ([Step.readImage, Step.callModel], Except.error ExtractError.shapeMismatch)
          | some raw =>
            ([Step.readImage, Step.callModel], Except.ok (normalizeSchemaB raw))

/-! ### Basic lemmas about the cost map operations -/

lemma lookupFst_setVal_self (m : CostMap) (k : String) (v : ℚ) :
    lookupFst (setVal m k v) k = some v := by
  induction m with
  | nil => simp [setVal, lookupFst]
  | cons kv m ih =>
    by_cases h : kv.1 = k
    · simp [setVal, lookupFst, h]
    · simp [setVal, lookupFst, h, ih]

lemma lookupFst_setVal_ne (m : CostMap) (k k' : String) (v : ℚ) (h : k ≠ k') :
    lookupFst (setVal m k v) k' = lookupFst m k' := by
  induction m with
  | nil => simp [setVal, lookupFst, h]
  | cons kv m ih =>
    by_cases hk : kv.1 = k
    · simp [setVal, lookupFst, hk, h]
    · simp [setVal, lookupFst, hk, ih]

lemma getD_addTo_self (m : CostMap) (k : String) (c : ℚ) :
    getD (addTo m k c) k = getD m k + c := by
  simp [addTo, getD, lookupFst_setVal_self]

lemma getD_addTo_ne (m : CostMap) (k k' : String) (c : ℚ) (h : k ≠ k') :
    getD (addTo m k c) k' = getD m k' := by
  simp [addTo, getD, lookupFst_setVal_ne m k k' _ h]

lemma sumValues_nil : sumValues [] = 0 := rfl

lemma sumValues_cons (kv : String × ℚ) (m : CostMap) :
    sumValues (kv :: m) = kv.2 + sumValues m := by
  simp [sumValues]

lemma sumValues_setVal (m : CostMap) (k : String) (v : ℚ) :
    sumValues (setVal m k v) = sumValues m - getD m k + v := by
  induction m with
  | nil => simp [setVal, sumValues, getD, lookupFst]
  | cons kv m ih =>
    obtain ⟨a, b⟩ := kv
    by_cases h : a = k
    · subst h
      simp [setVal, sumValues_cons, getD, lookupFst]
      ring
    · simp only [setVal, if_neg h, sumValues_cons, ih, getD, lookupFst, if_neg h]
      ring

lemma sumValues_addTo (m : CostMap) (k : String) (c : ℚ) :
    sumValues (addTo m k c) = sumValues m + c := by
  rw [addTo, sumValues_setVal]; ring

/-- A binding in the updated map is the new binding or an old one. -/
lemma mem_setVal (m : CostMap) (k : String) (v : ℚ) (kv : String × ℚ)
    (h : kv ∈ setVal m k v) : kv = (k, v) ∨ kv ∈ m := by
  induction m with
  | nil => simpa [setVal] using h
  | cons kv' m ihm =>
    by_cases hk : kv'.1 = k
    · simp only [setVal, if_pos hk, List.mem_cons] at h
      rcases h with h | h
      · exact Or.inl h
      · exact Or.inr (List.mem_cons_of_mem _ h)
    · simp only [setVal, if_neg hk, List.mem_cons] at h
      rcases h with h | h
      · exact Or.inr (by simp [h])
      · rcases ihm h with h' | h'
        · exact Or.inl h'
        · exact Or.inr (List.mem_cons_of_mem _ h')

/-- Every value placed by the initialization loop is zero. -/
lemma initCosts_values_zero (ps : List Participant) :
    ∀ kv ∈ initCosts ps, kv.2 = (0 : ℚ) := by
  have key : ∀ (ps : List Participant) (m : CostMap),
      (∀ kv ∈ m, kv.2 = (0 : ℚ)) →
      ∀ kv ∈ ps.foldl (fun m p => setVal m p.id 0) m, kv.2 = (0 : ℚ) := by
    intro ps
    induction ps with
    | nil => intro m hm; simpa [List.foldl] using hm
    | cons p ps ih =>
      intro m hm
      refine ih (setVal m p.id 0) ?_
      intro kv hkv
      rcases mem_setVal m p.id 0 kv hkv with rfl | h'
      · rfl
      · exact hm kv h'
  exact key ps [] (by simp)

lemma lookupFst_mem (m : CostMap) (k : String) (v : ℚ) (h : lookupFst m k = some v) :
    ∃ kv ∈ m, kv.2 = v := by
  induction m with
  | nil => simp [lookupFst] at h
  | cons kv m ih =>
    by_cases hk : kv.1 = k
    · refine ⟨kv, List.mem_cons_self _ _, ?_⟩
      simp [lookupFst, hk] at h
      exact h
    · simp only [lookupFst, if_neg hk] at h
      rcases ih h with ⟨kv', hmem, hv⟩
      exact ⟨kv', List.mem_cons_of_mem _ hmem, hv⟩

lemma getD_initCosts (ps : List Participant) (k : String) :
    getD (initCosts ps) k = 0 := by
  unfold getD
  cases hl : lookupFst (initCosts ps) k with
  | none => rfl
  | some v =>
    rcases lookupFst_mem _ _ _ hl with ⟨kv, hmem, hv⟩
    have hz := initCosts_values_zero ps kv hmem
    rw [hv] at hz
    simp [hz]

lemma sumValues_initCosts (ps : List Participant) :
    sumValues (initCosts ps) = 0 := by
  unfold sumValues
  refine List.sum_eq_zero ?_
  intro x hx
  rcases List.mem_map.mp hx with ⟨kv, hmem, rfl⟩
  exact initCosts_values_zero ps kv hmem

/-! ### Lemmas about the crediting loops -/

/-- Crediting `c` once per entry of `ids` raises the sum of the map by
`ids.length * c`. -/
lemma sumValues_foldl_addTo (ids : List String) (c : ℚ) (m : CostMap) :
    sumValues (ids.foldl (fun acc q => addTo acc q c) m)
      = sumValues m + (ids.length : ℚ) * c := by
  induction ids generalizing m with
  | nil => simp
  | cons q ids ih =>
    simp only [List.foldl_cons, ih (addTo m q c), sumValues_addTo, List.length_cons]
    push_cast
    ring

/-- Crediting `c` once per entry of `ids` raises the value at `k` by one
`c` per occurrence of `k` in `ids`. -/
lemma getD_foldl_addTo (ids : List String) (c : ℚ) (m : CostMap) (k : String) :
    getD (ids.foldl (fun acc q => addTo acc q c) m) k
      = getD m k + (ids.count k : ℚ) * c := by
  induction ids generalizing m with
  | nil => simp
  | cons q ids ih =>
    simp only [List.foldl_cons, ih (addTo m q c)]
    by_cases h : q = k
    · subst h
      rw [getD_addTo_self]
      simp [List.count_cons]
      ring
    · rw [getD_addTo_ne m q k c h]
      have hkq : (q == k) = false := beq_eq_false_iff_ne.mpr h
      have hcnt : (q :: ids).count k = ids.count k := by
        rw [List.count_cons, hkq]
        simp
      rw [hcnt]

/-- The sum after the first loop is the starting sum plus the prices of
all items with a non-empty assignment list. -/
lemma sumValues_creditAssigned (items : List BillItem) (a : ItemAssignments) (m : CostMap) :
    sumValues (creditAssigned items a m)
      = sumValues m
        + ((items.filter (fun it => isAssigned a it)).map (fun it => it.price)).sum := by
  induction items generalizing m with
  | nil => simp [creditAssigned]
  | cons it items ih =>
    by_cases h : 0 < (assignedTo a it.id).length
    · have hne : ((assignedTo a it.id).length : ℚ) ≠ 0 := by
        exact_mod_cast Nat.pos_iff_ne_zero.mp h
      have hstep : creditAssigned (it :: items) a m
          = creditAssigned items a
              ((assignedTo a it.id).foldl
                (fun acc pId => addTo acc pId (it.price / ((assignedTo a it.id).length : ℚ))) m) := by
        simp [creditAssigned, h]
      rw [hstep, ih, sumValues_foldl_addTo]
      have hfil : (it :: items).filter (fun it => isAssigned a it)
          = it :: items.filter (fun it => isAssigned a it) := by
        simp [List.filter_cons, isAssigned, h]
      rw [hfil]
      simp only [List.map_cons, List.sum_cons]
      rw [mul_div_cancel₀ _ hne] at *
      ring
    · have hstep : creditAssigned (it :: items) a m = creditAssigned items a m := by
        simp [creditAssigned, h]
      rw [hstep, ih]
      have hfil : (it :: items).filter (fun it => isAssigned a it)
          = items.filter (fun it => isAssigned a it) := by
        simp [List.filter_cons, isAssigned, h]
      rw [hfil]

/-- The first loop does nothing when no item has a non-empty assignment
list. -/
lemma creditAssigned_of_none (items : List BillItem) (a : ItemAssignments) (m : CostMap)
    (h : ∀ it ∈ items, assignedTo a it.id = []) :
    creditAssigned items a m = m := by
  induction items generalizing m with
  | nil => rfl
  | cons it items ih =>
    have h0 : assignedTo a it.id = [] := h it (List.mem_cons_self _ _)
    have hstep : creditAssigned (it :: items) a m = creditAssigned items a m := by
      simp [creditAssigned, h0]
    rw [hstep]
    exact ih m (fun it' hit' => h it' (List.mem_cons_of_mem _ hit'))

/-- Membership in the `assignedItemIds` set is determined by the item's
own assignment list, so the filter keeps exactly the items with an empty
assignment list. -/
lemma unassignedItems_eq (items : List BillItem) (a : ItemAssignments) :
    unassignedItems items a = items.filter (fun it => !(isAssigned a it)) := by
  unfold unassignedItems
  refine List.filter_congr ?_
  intro it hit
  have hiff : ((assignedItemIds items a).contains it.id) = isAssigned a it := by
    cases h : isAssigned a it with
    | true =>
      have hmem : it.id ∈ assignedItemIds items a :=
        List.mem_map_of_mem _ (List.mem_filter.mpr ⟨hit, h⟩)
      exact List.elem_eq_true_of_mem hmem
    | false =>
      cases hcc : (assignedItemIds items a).contains it.id with
      | false => rfl
      | true =>
        exfalso
        have hm := List.mem_of_elem_eq_true hcc
        rcases List.mem_map.mp hm with ⟨it', hfil, hid⟩
        have h2 := (List.mem_filter.mp hfil).2
        have h3 : isAssigned a it = true := by
          unfold isAssigned at h2 ⊢
          rwa [hid] at h2
        rw [h] at h3
        exact Bool.false_ne_true h3
  rw [hiff]

/-- For a single item with a non-empty assignment list, the breakdown is
exactly the crediting loop over that list, started from the zeroed map. -/
lemma costBreakdown_single_assigned (it : BillItem) (ps : List Participant)
    (a : ItemAssignments) (hne : assignedTo a it.id ≠ []) :
    costBreakdown [it] ps a
      = (assignedTo a it.id).foldl
          (fun acc pId => addTo acc pId (it.price / ((assignedTo a it.id).length : ℚ)))
          (initCosts ps) := by
  have hpos : 0 < (assignedTo a it.id).length := List.length_pos.mpr hne
  have hassigned : isAssigned a it = true := by simp [isAssigned, hpos]
  have hun : unassignedItems [it] a = [] := by
    rw [unassignedItems_eq]
    simp [List.filter_cons, hassigned]
  have hcred : creditAssigned [it] a (initCosts ps)
      = (assignedTo a it.id).foldl
          (fun acc pId => addTo acc pId (it.price / ((assignedTo a it.id).length : ℚ)))
          (initCosts ps) := by
    simp [creditAssigned, hpos]
  simp only [costBreakdown, hun]
  simpa using hcred

/-! ### Claims about the Allocator -/

/-- C1: for every non-empty item list and non-empty participant list in
which every item is assigned to exactly one currently-present participant,
the sum of all values of the CostBreakdown returned by the allocator
equals the sum of all item prices, within 1e-6 absolute tolerance. -/
theorem C1_sum_preserved (items : List BillItem) (ps : List Participant)
    (a : ItemAssignments) (hitems : items ≠ []) (hps : ps ≠ [])
    (hass : ∀ it ∈ items, ∃ p ∈ ps, assignedTo a it.id = [p.id]) :
    |sumValues (costBreakdown items ps a) - (items.map (fun it => it.price)).sum|
      ≤ 1 / 1000000 := by
  have hall : ∀ it ∈ items, isAssigned a it = true := by
    intro it hit
    rcases hass it hit with ⟨p, _, hone⟩
    simp [isAssigned, hone]
  have hfil : items.filter (fun it => isAssigned a it) = items :=
    List.filter_eq_self.mpr hall
  have hun : unassignedItems items a = [] := by
    rw [unassignedItems_eq]
    refine List.filter_eq_nil_iff.mpr ?_
    intro it hit
    simp [hall it hit]
  have hbd : costBreakdown items ps a = creditAssigned items a (initCosts ps) := by
    simp only [costBreakdown, hun]
    simp
  rw [hbd, sumValues_creditAssigned, sumValues_initCosts, hfil]
  norm_num

theorem C1_sum_preserved_witness :
    |sumValues (costBreakdown [⟨"1", "Tea", 10, false⟩] [⟨"p1", "Ana"⟩] [("1", ["p1"])])
        - (([⟨"1", "Tea", 10, false⟩] : List BillItem).map (fun it => it.price)).sum|
      ≤ 1 / 1000000 := by
  refine C1_sum_preserved _ _ _ (by simp) (by simp) ?_
  intro it hit
  refine ⟨⟨"p1", "Ana"⟩, by simp, ?_⟩
  rcases List.mem_singleton.mp hit with rfl
  rfl

/-- C4: with a non-empty item list, no isShared items, no non-empty
assignment sets, and at least one participant, every participant's total
is exactly the price sum divided by the participant count. -/
theorem C4_equal_split (items : List BillItem) (ps : List Participant)
    (a : ItemAssignments) (hitems : items ≠ [])
    (hshared : ∀ it ∈ items, it.isShared = false)
    (hass : ∀ it ∈ items, assignedTo a it.id = []) (hps : ps ≠ [])
    (hnodup : (ps.map (fun p => p.id)).Nodup) :
    ∀ p ∈ ps, getD (costBreakdown items ps a) p.id
      = (items.map (fun it => it.price)).sum / (ps.length : ℚ) := by
  intro p hp
  have hnone : ∀ it ∈ items, isAssigned a it = false := by
    intro it hit
    simp [isAssigned, hass it hit]
  have hun : unassignedItems items a = items := by
    rw [unassignedItems_eq]
    refine List.filter_eq_self.mpr ?_
    intro it hit
    simp [hnone it hit]
  have hc1 : creditAssigned items a (initCosts ps) = initCosts ps :=
    creditAssigned_of_none _ _ _ hass
  have hcond : 0 < items.length ∧ 0 < ps.length :=
    ⟨List.length_pos.mpr hitems, List.length_pos.mpr hps⟩
  have hbd : costBreakdown items ps a
      = ps.foldl
          (fun m p =>
            addTo m p.id ((items.map (fun it => it.price)).sum / (ps.length : ℚ)))
          (initCosts ps) := by
    simp only [costBreakdown, hun, hc1]
    rw [if_pos hcond]
  rw [hbd]
  rw [(List.foldl_map (fun p : Participant => p.id)
    (fun m q => addTo m q ((items.map (fun it => it.price)).sum / (ps.length : ℚ)))
    ps (initCosts ps)).symm]
  rw [getD_foldl_addTo, getD_initCosts,
    List.count_eq_one_of_mem hnodup (List.mem_map_of_mem _ hp)]
  simp

theorem C4_equal_split_witness :
    getD (costBreakdown [⟨"1", "Tea", 3, false⟩, ⟨"2", "Bun", 5, false⟩]
        [⟨"a", "Ana"⟩, ⟨"b", "Bo"⟩] []) (⟨"a", "Ana"⟩ : Participant).id
      = (([⟨"1", "Tea", 3, false⟩, ⟨"2", "Bun", 5, false⟩] : List BillItem).map
          (fun it => it.price)).sum
        / ((([⟨"a", "Ana"⟩, ⟨"b", "Bo"⟩] : List Participant).length : ℚ)) :=
  C4_equal_split _ _ _ (by simp) (by intro it hit; fin_cases hit <;> rfl)
    (by intro it hit; fin_cases hit <;> rfl) (by simp) (by simp)
    ⟨"a", "Ana"⟩ (by simp)

/-- C7: the allocator is total and degrades gracefully: with zero
participants (and assignment sets referencing only current participants,
hence empty) the returned breakdown is empty, and with zero items every
participant's total is 0. -/
theorem C7_degrades_gracefully (items : List BillItem) (ps : List Participant)
    (a : ItemAssignments) (h : ∀ it ∈ items, assignedTo a it.id = []) :
    costBreakdown items [] a = [] ∧ (∀ k, getD (costBreakdown [] ps a) k = 0) := by
  constructor
  · have hc1 : creditAssigned items a (initCosts []) = initCosts [] :=
      creditAssigned_of_none _ _ _ h
    simp only [costBreakdown, hc1]
    simp [initCosts]
  · intro k
    have hbd : costBreakdown [] ps a = initCosts ps := by
      simp [costBreakdown, creditAssigned, unassignedItems, assignedItemIds]
    rw [hbd, getD_initCosts]

theorem C7_degrades_gracefully_witness :
    costBreakdown [⟨"1", "Tea", 3, false⟩, ⟨"2", "Bun", 5, false⟩] [] [("1", [])] = [] ∧
    (∀ k, getD (costBreakdown [] [⟨"a", "Ana"⟩] [("1", [])]) k = 0) :=
  C7_degrades_gracefully _ _ _ (by intro it hit; fin_cases hit <;> rfl)

/-- C9: for an item with a non-empty assignment list, duplicates included,
the crediting loop adds `price / n` once per entry (`n` counting
duplicates): the map's sum grows by exactly the item's price, and a
participant id listed `k` times is charged `k * (price / n)` on top of its
previous total. -/
theorem C9_duplicate_entries (it : BillItem) (a : ItemAssignments) (m : CostMap)
    (hne : assignedTo a it.id ≠ []) :
    sumValues (creditAssigned [it] a m) = sumValues m + it.price ∧
    ∀ k, getD (creditAssigned [it] a m) k
        = getD m k
          + ((assignedTo a it.id).count k : ℚ)
            * (it.price / ((assignedTo a it.id).length : ℚ)) := by
  have hpos : 0 < (assignedTo a it.id).length := List.length_pos.mpr hne
  have hq : ((assignedTo a it.id).length : ℚ) ≠ 0 := by
    exact_mod_cast Nat.pos_iff_ne_zero.mp hpos
  have hstep : creditAssigned [it] a m
      = (assignedTo a it.id).foldl
          (fun acc pId => addTo acc pId (it.price / ((assignedTo a it.id).length : ℚ))) m := by
    simp [creditAssigned, hpos]
  constructor
  · rw [hstep, sumValues_foldl_addTo, mul_div_cancel₀ _ hq]
  · intro k
    rw [hstep, getD_foldl_addTo]

theorem C9_duplicate_entries_witness :
    sumValues (creditAssigned [⟨"1", "Pizza", 9, false⟩] [("1", ["a", "a", "b"])] []) = 9 ∧
    getD (creditAssigned [⟨"1", "Pizza", 9, false⟩] [("1", ["a", "a", "b"])] []) "a" = 6 := by
  have h := C9_duplicate_entries ⟨"1", "Pizza", 9, false⟩ [("1", ["a", "a", "b"])] []
    (by rw [show assignedTo [("1", ["a", "a", "b"])] "1" = ["a", "a", "b"] from rfl]; simp)
  constructor
  · rw [h.1]
    simp [sumValues]
  · rw [h.2 "a"]
    norm_num [assignedTo, lookupFst, getD,
      show List.count "a" ["b"] = 0 from rfl,
      show List.count "a" ["a", "a", "b"] = 2 from rfl]

/-- C3 counterexample: item "1" (price 10) is assigned to the id "ghost"
which is not among the participants (only "p" is).  The claim predicts the
unknown id is ignored and receives no credit; the code instead credits
"ghost" the full price in the returned map and gives "p" nothing. -/
theorem C3_unknown_id_counterexample :
    costBreakdown [⟨"1", "Tea", 10, false⟩] [⟨"p", "Pat"⟩] [("1", ["ghost"])]
      = [("p", 0), ("ghost", 10)] ∧
    getD (costBreakdown [⟨"1", "Tea", 10, false⟩] [⟨"p", "Pat"⟩] [("1", ["ghost"])]) "ghost"
      ≠ 0 := by
  constructor
  · norm_num +decide [costBreakdown, creditAssigned, initCosts, unassignedItems,
      assignedItemIds, isAssigned, assignedTo, lookupFst, setVal, addTo, getD,
      List.contains, List.filter]
  · norm_num +decide [costBreakdown, creditAssigned, initCosts, unassignedItems,
      assignedItemIds, isAssigned, assignedTo, lookupFst, setVal, addTo, getD,
      List.contains, List.filter]

/-- C3 (amended): the allocator does not raise, but an unknown participant
id in a non-empty assignment list is not ignored: it is counted in the
divisor and the returned breakdown credits it `count * (price / n)`, a
non-zero amount for a non-zero price. -/
theorem C3_unknown_id_credited (it : BillItem) (ps : List Participant)
    (a : ItemAssignments) (q : String) (hne : assignedTo a it.id ≠ [])
    (hq : q ∈ assignedTo a it.id) (hunknown : ∀ p ∈ ps, p.id ≠ q)
    (hprice : it.price ≠ 0) :
    getD (costBreakdown [it] ps a) q
        = ((assignedTo a it.id).count q : ℚ)
          * (it.price / ((assignedTo a it.id).length : ℚ)) ∧
    getD (costBreakdown [it] ps a) q ≠ 0 := by
  have hpos : 0 < (assignedTo a it.id).length := List.length_pos.mpr hne
  have hq0 : ((assignedTo a it.id).length : ℚ) ≠ 0 := by
    exact_mod_cast Nat.pos_iff_ne_zero.mp hpos
  have hval : getD (costBreakdown [it] ps a) q
      = ((assignedTo a it.id).count q : ℚ)
        * (it.price / ((assignedTo a it.id).length : ℚ)) := by
    rw [costBreakdown_single_assigned it ps a hne, getD_foldl_addTo, getD_initCosts]
    ring
  refine ⟨hval, ?_⟩
  rw [hval]
  have hcount : 0 < (assignedTo a it.id).count q := List.count_pos_iff.mpr hq
  exact mul_ne_zero (by exact_mod_cast Nat.pos_iff_ne_zero.mp hcount)
    (div_ne_zero hprice hq0)

theorem C3_unknown_id_credited_witness :
    getD (costBreakdown [⟨"1", "Tea", 10, false⟩] [⟨"p", "Pat"⟩] [("1", ["ghost"])]) "ghost"
        = ((assignedTo [("1", ["ghost"])] "1").count "ghost" : ℚ)
          * (((⟨"1", "Tea", 10, false⟩ : BillItem)).price
              / (((assignedTo [("1", ["ghost"])] "1").length : ℚ))) ∧
    getD (costBreakdown [⟨"1", "Tea", 10, false⟩] [⟨"p", "Pat"⟩] [("1", ["ghost"])]) "ghost"
        ≠ 0 :=
  C3_unknown_id_credited ⟨"1", "Tea", 10, false⟩ [⟨"p", "Pat"⟩] [("1", ["ghost"])] "ghost"
    (by rw [show assignedTo [("1", ["ghost"])] "1" = ["ghost"] from rfl]; simp)
    (by rw [show assignedTo [("1", ["ghost"])] "1" = ["ghost"] from rfl]; simp)
    (by intro p hp; fin_cases hp; simp)
    (by norm_num)

/-- C2 counterexample: a single item flagged `isShared` and explicitly
assigned to participant "a" out of two participants.  The claim predicts
the flag forces an equal split (5 each); the code charges "a" the full 10
and "b" nothing. -/
theorem C2_isShared_counterexample :
    costBreakdown [⟨"1", "Tax", 10, true⟩] [⟨"a", "Ana"⟩, ⟨"b", "Bo"⟩] [("1", ["a"])]
      = [("a", 10), ("b", 0)] ∧
    getD (costBreakdown [⟨"1", "Tax", 10, true⟩] [⟨"a", "Ana"⟩, ⟨"b", "Bo"⟩]
        [("1", ["a"])]) "b"
      ≠ 10 / 2 := by
  constructor
  · norm_num +decide [costBreakdown, creditAssigned, initCosts, unassignedItems,
      assignedItemIds, isAssigned, assignedTo, lookupFst, setVal, addTo, getD,
      List.contains, List.filter]
  · norm_num +decide [costBreakdown, creditAssigned, initCosts, unassignedItems,
      assignedItemIds, isAssigned, assignedTo, lookupFst, setVal, addTo, getD,
      List.contains, List.filter]

/-- C2 (amended): the allocator never reads the `isShared` flag: replacing
every item's flag by arbitrary values leaves the returned CostBreakdown
unchanged, so an `isShared` item with a non-empty assignment set is split
among its assignees like any other item, and falls to the equal split
across all participants only when its assignment set is empty. -/
theorem C2_isShared_ignored (items : List BillItem) (ps : List Participant)
    (a : ItemAssignments) (f : BillItem → Bool) :
    costBreakdown (items.map (fun it => { it with isShared := f it })) ps a
      = costBreakdown items ps a := by
  have hcredit : ∀ m, creditAssigned (items.map (fun it => { it with isShared := f it })) a m
      = creditAssigned items a m := by
    intro m
    unfold creditAssigned
    rw [List.foldl_map]
  have hids : assignedItemIds (items.map (fun it => { it with isShared := f it })) a
      = assignedItemIds items a := by
    unfold assignedItemIds
    rw [List.filter_map, List.map_map]
    rfl
  have hun : unassignedItems (items.map (fun it => { it with isShared := f it })) a
      = (unassignedItems items a).map (fun it => { it with isShared := f it }) := by
    unfold unassignedItems
    rw [hids, List.filter_map]
    rfl
  simp only [costBreakdown, hcredit, hun, List.length_map, List.map_map]
  rfl

/-! ### Structure of the greedy regex span -/

lemma firstIdx_spec (c : Char) :
    ∀ (cs : List Char) (i : Nat), firstIdx c cs = some i →
      ∃ pre t, cs = pre ++ c :: t ∧ pre.length = i ∧ ∀ d ∈ pre, d ≠ c := by
  intro cs
  induction cs with
  | nil => intro i h; simp [firstIdx] at h
  | cons d ds ih =>
    intro i h
    by_cases hd : d = c
    · rw [show firstIdx c (d :: ds) = some 0 from by simp [firstIdx, hd]] at h
      injection h with h
      exact ⟨[], ds, by simp [hd], by simpa using h, by simp⟩
    · simp only [firstIdx, if_neg hd] at h
      rcases Option.map_eq_some'.mp h with ⟨i', hi', rfl⟩
      rcases ih i' hi' with ⟨pre, t, hcs, hlen, hpre⟩
      refine ⟨d :: pre, t, by simp [hcs], by simp [hlen], ?_⟩
      intro x hx
      rcases List.mem_cons.mp hx with rfl | hx
      · exact hd
      · exact hpre x hx

lemma lastIdx_spec (c : Char) (cs : List Char) (j : Nat) (h : lastIdx c cs = some j) :
    ∃ pre t, cs = pre ++ c :: t ∧ pre.length = j ∧ ∀ d ∈ t, d ≠ c := by
  unfold lastIdx at h
  rcases Option.map_eq_some'.mp h with ⟨k, hk, rfl⟩
  rcases firstIdx_spec c cs.reverse k hk with ⟨pre', t', hrev, hlen, hpre'⟩
  have hcs : cs = t'.reverse ++ c :: pre'.reverse := by
    have h2 := congrArg List.reverse hrev
    simpa [List.reverse_append] using h2
  have hlencs : cs.length = pre'.length + 1 + t'.length := by
    have h2 := congrArg List.length hrev
    simp at h2
    omega
  refine ⟨t'.reverse, pre'.reverse, hcs, ?_, ?_⟩
  · rw [List.length_reverse]
    omega
  · intro d hd
    exact hpre' d (List.mem_reverse.mp hd)

/-- What the greedy regex match looks like: the matched substring starts
at the first opening character (nothing before it is an opening
character), ends at the last closing character (nothing after it is a
closing character), and sits infix in the text. -/
lemma bracketSpan_structure (oc cc : Char) (s sub : String)
    (h : bracketSpan oc cc s = some sub) :
    ∃ l r m, s.data = l ++ sub.data ++ r ∧ (∀ d ∈ l, d ≠ oc) ∧ (∀ d ∈ r, d ≠ cc) ∧
      sub.data.head? = some oc ∧ sub.data = m ++ [cc] := by
  unfold bracketSpan at h
  cases hf : firstIdx oc s.data with
  | none => rw [hf] at h; cases hl : lastIdx cc s.data <;> rw [hl] at h <;> simp at h
  | some i =>
    cases hl : lastIdx cc s.data with
    | none => rw [hf, hl] at h; simp at h
    | some j =>
      rw [hf, hl] at h
      simp only at h
      split_ifs at h with hij
      · have hsub : sub.data = (s.data.drop i).take (j + 1 - i) := by
          have := (Option.some.injEq _ _).mp h
          rw [← this]
        rcases firstIdx_spec oc s.data i hf with ⟨pre1, t1, hcs1, hlen1, hp1⟩
        rcases lastIdx_spec cc s.data j hl with ⟨pre2, t2, hcs2, hlen2, hp2⟩
        have hA : s.data.drop i = oc :: t1 := by
          rw [hcs1, ← hlen1, List.drop_left]
        have hB : s.data.take (j + 1) = pre2 ++ [cc] := by
          rw [hcs2, ← hlen2]
          simpa using
            (List.take_append 1 :
              (pre2 ++ cc :: t2).take (pre2.length + 1) = pre2 ++ (cc :: t2).take 1)
        have hD : sub.data = (s.data.take (j + 1)).drop i := by
          rw [List.drop_take, hsub]
        have hpre1take : (s.data.take (j + 1)).take i = pre1 := by
          rw [List.take_take, min_eq_left (by omega), hcs1, ← hlen1, List.take_left]
        have hE : pre1 ++ sub.data = s.data.take (j + 1) := by
          rw [hD, ← hpre1take]
          exact List.take_append_drop i (s.data.take (j + 1))
        have hC : s.data.drop (j + 1) = t2 := by
          rw [hcs2, ← hlen2]
          simpa using
            (List.drop_append 1 :
              (pre2 ++ cc :: t2).drop (pre2.length + 1) = (cc :: t2).drop 1)
        refine ⟨pre1, t2, pre2.drop i, ?_, hp1, hp2, ?_, ?_⟩
        · rw [hE, ← hC, List.take_append_drop]
        · rw [hsub, hA]
          have : j + 1 - i = (j - i) + 1 := by omega
          rw [this, List.take_succ_cons]
          rfl
        · rw [hD, hB, List.drop_append_eq_append_drop]
          have : i - pre2.length = 0 := by omega
          rw [this]
          simp

/-! ### A helper for the `mapIdx` normalizations -/

lemma map_mapIdx_proj {α β γ : Type} (l : List α) (f : ℕ → α → β) (g : β → γ)
    (k : α → γ) (h : ∀ i a, g (f i a) = k a) :
    (l.mapIdx f).map g = l.map k := by
  rw [List.mapIdx_eq_enum_map, List.map_map]
  have hfun : (g ∘ Function.uncurry f) = (k ∘ Prod.snd) := by
    funext p
    exact h p.1 p.2
  rw [hfun, ← List.map_map, List.enum_map_snd]

/-! ### Claims about the Extractor -/

/-- C5 counterexample: on the text `a [1] b [2] c` the direct parse fails
and a well-formed bracket-delimited structure (`[1]`) exists, so the
claimed strategy succeeds; the code's greedy regex instead grabs
`[1] b [2]`, which is not valid JSON, and the parse fails.  On `x [1] y`
the Schema A version finds no object-form match at all and fails, though
a well-formed array structure is present. -/
theorem C5_parse_fallback_counterexample :
    jsonParse "a [1] b [2] c" = none ∧
    specParseResponse "a [1] b [2] c" = Except.ok (Json.arr [Json.num 1]) ∧
    parseModelResponseB "a [1] b [2] c" = Except.error ParseFailure.invalidJson ∧
    specParseResponse "x [1] y" = Except.ok (Json.arr [Json.num 1]) ∧
    parseModelResponseA "x [1] y" = Except.error ParseFailure.noJsonFound :=
  ⟨rfl, rfl, rfl, rfl, rfl⟩

/-- C5 (amended): each version's parser first attempts a direct full-text
parse; on failure it takes the greedy span from the first opening bracket
of its own schema's form to the last closing bracket and parses that
substring; it fails with the `ResponseParseError` message exactly when no
such span exists, and with the underlying JSON syntax error when the span
is not valid JSON. -/
theorem C5_parse_fallback_greedy (text : String) :
    (∀ v, jsonParse text = some v →
        parseModelResponseA text = Except.ok v ∧ parseModelResponseB text = Except.ok v) ∧
    (jsonParse text = none → bracketSpan '[' ']' text = none →
        parseModelResponseB text = Except.error ParseFailure.noJsonFound) ∧
    (∀ sub v, jsonParse text = none → bracketSpan '[' ']' text = some sub →
        jsonParse sub = some v → parseModelResponseB text = Except.ok v) ∧
    (∀ sub, jsonParse text = none → bracketSpan '[' ']' text = some sub →
        jsonParse sub = none →
        parseModelResponseB text = Except.error ParseFailure.invalidJson) ∧
    (jsonParse text = none → bracketSpan '{' '}' text = none →
        parseModelResponseA text = Except.error ParseFailure.noJsonFound) ∧
    (∀ sub, bracketSpan '[' ']' text = some sub →
        ∃ l r m, text.data = l ++ sub.data ++ r ∧ (∀ d ∈ l, d ≠ '[') ∧
          (∀ d ∈ r, d ≠ ']') ∧ sub.data.head? = some '[' ∧ sub.data = m ++ [']']) := by
  refine ⟨?_, ?_, ?_, ?_, ?_, ?_⟩
  · intro v h
    constructor <;> simp [parseModelResponseA, parseModelResponseB, parseResponseWith, h]
  · intro h1 h2
    simp [parseModelResponseB, parseResponseWith, h1, h2]
  · intro sub v h1 h2 h3
    simp [parseModelResponseB, parseResponseWith, h1, h2, h3]
  · intro sub h1 h2 h3
    simp [parseModelResponseB, parseResponseWith, h1, h2, h3]
  · intro h1 h2
    simp [parseModelResponseA, parseResponseWith, h1, h2]
  · intro sub h
    exact bracketSpan_structure '[' ']' text sub h

theorem C5_parse_fallback_greedy_witness :
    parseModelResponseB "noise [1] end" = Except.ok (Json.arr [Json.num 1]) :=
  (C5_parse_fallback_greedy "noise [1] end").2.2.1 "[1]" (Json.arr [Json.num 1]) rfl rfl rfl

/-- C6: Schema A normalization adds `(cgst + sgst) / itemCount` to every
item's price (for a non-empty item list), rounding to 2 decimals; in
particular one item `(Tea, 10)` with `cgst = 1`, `sgst = 1` yields exactly
one BillItem priced 12.00. -/
theorem C6_schemaA_tax_share (items : List RawItemA) (cgst sgst : ℚ) (h : items ≠ []) :
    (normalizeSchemaA items cgst sgst).length = items.length ∧
    (normalizeSchemaA items cgst sgst).map (fun it => it.price)
      = items.map (fun it => round2 (it.price + (cgst + sgst) / (items.length : ℚ))) ∧
    normalizeSchemaA [⟨"Tea", 10⟩] 1 1
      = [{ id := "1", description := "Tea", price := 12, isShared := false }] := by
  have hpos : 0 < items.length := List.length_pos.mpr h
  refine ⟨?_, ?_, ?_⟩
  · simp [normalizeSchemaA, List.length_mapIdx]
  · simp only [normalizeSchemaA]
    rw [if_pos hpos]
    exact map_mapIdx_proj items _ _ _ (fun i a => rfl)
  · norm_num [normalizeSchemaA, round2, List.mapIdx_cons, List.mapIdx_nil]
    decide

theorem C6_schemaA_tax_share_witness :
    (normalizeSchemaA [⟨"Tea", 10⟩, ⟨"Bun", 5⟩] 1 1).map (fun it => it.price)
      = ([⟨"Tea", 10⟩, ⟨"Bun", 5⟩] : List RawItemA).map
          (fun it =>
            round2 (it.price
              + ((1 : ℚ) + 1)
                / ((([⟨"Tea", 10⟩, ⟨"Bun", 5⟩] : List RawItemA).length : ℚ)))) :=
  (C6_schemaA_tax_share [⟨"Tea", 10⟩, ⟨"Bun", 5⟩] 1 1 (by simp)).2.1

/-- C8: with a missing or placeholder credential, the Extractor fails with
the configuration error before reading the image and before any network
call (the effect trace is empty), and never returns an item list. -/
theorem C8_config_guard (env : Env)
    (h : env.apiKey = "" ∨ env.apiKey = placeholderKey) :
    (processBillImage env).1 = [] ∧
    (processBillImage env).2 = Except.error ExtractError.configurationError ∧
    ∀ items, (processBillImage env).2 ≠ Except.ok items := by
  have hbd : processBillImage env = ([], Except.error ExtractError.configurationError) := by
    unfold processBillImage
    rw [if_pos h]
  rw [hbd]
  exact ⟨rfl, rfl, fun items hc => Except.noConfusion hc⟩

theorem C8_config_guard_witness :
    (processBillImage ⟨"YOUR_GEMINI_API_KEY", some "imagebytes", some "[]"⟩).1 = [] ∧
    (processBillImage ⟨"YOUR_GEMINI_API_KEY", some "imagebytes", some "[]"⟩).2
      = Except.error ExtractError.configurationError ∧
    ∀ items, (processBillImage ⟨"YOUR_GEMINI_API_KEY", some "imagebytes", some "[]"⟩).2
      ≠ Except.ok items :=
  C8_config_guard _ (Or.inr rfl)

/-- C10: Schema B normalization sets `isShared` to true exactly when the
parsed `isTax` field is the boolean JSON value `true` (truthy non-booleans
such as the string "true" or the number 1 give false), and preserves the
items' order, length, descriptions and prices. -/
theorem C10_schemaB_isTax (parsedItems : List RawItemB) :
    (normalizeSchemaB parsedItems).length = parsedItems.length ∧
    (normalizeSchemaB parsedItems).map (fun it => it.description)
      = parsedItems.map (fun it => it.description) ∧
    (normalizeSchemaB parsedItems).map (fun it => it.price)
      = parsedItems.map (fun it => it.price) ∧
    (normalizeSchemaB parsedItems).map (fun it => it.isShared)
      = parsedItems.map (fun it => isTrueLiteral it.isTax) ∧
    (∀ o : Option Json, isTrueLiteral o = true ↔ o = some (Json.bool true)) ∧
    isTrueLiteral (some (Json.str "true")) = false ∧
    isTrueLiteral (some (Json.num 1)) = false := by
  refine ⟨?_, ?_, ?_, ?_, ?_, rfl, rfl⟩
  · simp [normalizeSchemaB, List.length_mapIdx]
  · simp only [normalizeSchemaB]
    exact map_mapIdx_proj _ _ _ _ (fun i a => rfl)
  · simp only [normalizeSchemaB]
    exact map_mapIdx_proj _ _ _ _ (fun i a => rfl)
  · simp only [normalizeSchemaB]
    exact map_mapIdx_proj _ _ _ _ (fun i a => rfl)
  · intro o
    cases o with
    | none => simp [isTrueLiteral]
    | some j =>
      cases j with
      | null => simp [isTrueLiteral]
      | bool b => cases b <;> simp [isTrueLiteral]
      | num q => simp [isTrueLiteral]
      | str s => simp [isTrueLiteral]
      | arr xs => simp [isTrueLiteral]
      | obj fs => simp [isTrueLiteral]

theorem C10_schemaB_isTax_witness :
    (normalizeSchemaB [⟨"Tax", 2, some (Json.str "true")⟩]).map (fun it => it.isShared)
      = ([⟨"Tax", 2, some (Json.str "true")⟩] : List RawItemB).map
          (fun it => isTrueLiteral it.isTax) :=
  (C10_schemaB_isTax [⟨"Tax", 2, some (Json.str "true")⟩]).2.2.2.1

end Spill
